import Mathlib

/-!
Verification development for the netdox redis plugin library.

The library is a typed access layer over a redis store.  We shallowly embed
its four source files:

* `model.rs`: `RedisArgs`, the `PluginData` payload type and its positional
  argument encoder `add_as_args`, `StringContentType`, and `Node`.
* `error.rs`: the `FCallError` taxonomy.
* `put.rs`: the writer operations, each of which builds one `FCALL` command
  (a list of positional arguments) and issues it.
* `get.rs`: the reader operations over an abstract store state.

A redis command argument is a byte string on the wire; the library passes
strings, unsigned integers and booleans through `ToRedisArgs`.  We model an
argument as a tagged value so that the numeric and boolean conversions stay
explicit.  A writer operation is modelled as a pure function returning the
list of remote invocations it issues (each invocation being the argument
list of one command) together with its `FCallResult`; an error outcome with
an empty invocation list means the operation returned before issuing any
remote call.  Rust `HashMap`/`HashSet` iteration, which is unordered, is
modelled by passing the iteration order explicitly as a list.
-/

/-- One positional argument of a redis command, as written by `ToRedisArgs`. -/
inductive RArg where
  | str (value : String)
  | num (value : Nat)
  | boolean (value : Bool)
deriving DecidableEq, Repr

/-- `error.rs`: the three error kinds.  `Redis` wraps a transport error,
carried here as a message string. -/
inductive FCallError where
  | WrongArgs (function : String) (problem : String)
  | Redis (message : String)
  | Logic (message : String)
deriving DecidableEq, Repr

/-- `error.rs`: `FCallResult<T>`. -/
abbrev FCallResult (α : Type) := Except FCallError α

/-- `model.rs`: the content types a string datum can be tagged as. -/
inductive StringContentType where
  | HTML
  | Markdown
  | Plain
deriving DecidableEq, Repr

/-- `model.rs`: `ToRedisArgs for StringContentType` writes one argument. -/
def StringContentType.toArg : StringContentType → RArg
  | .HTML => .str "html"
  | .Markdown => .str "markdown"
  | .Plain => .str "plain"

/-- `model.rs`: a datum that can be attached to an object.  `Hash` items and
`List` items carry their container's iteration order explicitly; for a rust
`HashMap` that order is arbitrary, for a `Vec` it is the sequence order. -/
inductive PluginData where
  | Hash (title : String) (items : List (String × String))
  | List (title : String) (items : List (String × String × String))
  | String (title : String) (content_type : StringContentType) (content : String)
  | Table (title : String) (num_columns : Nat) (rows : List (List String))
deriving DecidableEq, Repr

/-- The argument list of one redis command being built (`redis::Cmd`). -/
abbrev RArgs := List RArg

/-- `model.rs`: `PluginData::add_as_args`.  Appends to `cmd` the arguments of
a plugin-data creation fcall.  The `Hash` arm loops over the map entries, the
`List` arm passes the vector of triples as one `ToRedisArgs` block (which
flattens item by item), and the `Table` arm loops over rows and columns. -/
def PluginData.add_as_args (data : PluginData) (cmd : RArgs) : RArgs :=
  match data with
  | .Hash title items =>
      items.foldl (fun c kv => c ++ [.str kv.1, .str kv.2]) (cmd ++ [.str "hash", .str title])
  | .List title items =>
      cmd ++ [.str "list", .str title] ++
        items.foldl (fun c t => c ++ [.str t.1, .str t.2.1, .str t.2.2]) []
  | .String title content_type content =>
      cmd ++ [.str "string", .str title, content_type.toArg, .str content]
  | .Table title num_columns rows =>
      rows.foldl (fun c row => row.foldl (fun c2 col => c2 ++ [.str col]) c)
        (cmd ++ [.str "table", .str title, .num num_columns])

/-- `model.rs`: a processed node.  The four sets are `HashSet`s in rust; the
lists here carry the iteration order of those sets. -/
structure Node where
  name : String
  link_id : String
  alt_names : List String
  dns_names : List String
  raw_ids : List String
  plugins : List String
deriving DecidableEq, Repr

/-- `model.rs`: the redis connection details each plugin receives. -/
structure RedisArgs where
  host : String
  port : Nat
  db : Nat
  username : Option String
  password : Option String
deriving DecidableEq, Repr

/-- `model.rs`: `RedisArgs::to_client`.  Returns the connection URL and the
list of commands issued during construction (the `AUTH` command when a
username is given).  The rust code calls `self.password.unwrap()` inside the
`if let Some(username)` branch; `none` here models that panic. -/
def RedisArgs.to_client (args : RedisArgs) : Option (String × List (List RArg)) :=
  let url := "redis://" ++ args.host ++ ":" ++ toString args.port ++ "/" ++ toString args.db
  match args.username with
  | some username =>
      match args.password with
      | some password => some (url, [[.str "AUTH", .str username, .str password]])
      | none => none
  | none => some (url, [])

/-! Remote procedure names and key namespace constants (`put.rs`, `get.rs`). -/

def CREATE_DNS_FN : String := "netdox_create_dns"
def CREATE_NODE_FN : String := "netdox_create_node"
def CREATE_REPORT_FN : String := "netdox_create_report"
def CREATE_DNS_PDATA_FN : String := "netdox_create_dns_plugin_data"
def CREATE_NODE_PDATA_FN : String := "netdox_create_node_plugin_data"
def CREATE_PROC_NODE_PDATA_FN : String := "netdox_create_proc_node_plugin_data"
def CREATE_REPORT_DATA_FN : String := "netdox_create_report_data"
def CREATE_DNS_METADATA_FN : String := "netdox_create_dns_metadata"
def CREATE_NODE_METADATA_FN : String := "netdox_create_node_metadata"
def CREATE_PROC_NODE_METADATA_FN : String := "netdox_create_proc_node_metadata"

def QUALIFY_DNS_NAME_FN : String := "netdox_qualify_dns_names"
def META_KEY : String := "meta"
def DNS_KEY : String := "dns"
def NODES_KEY : String := "nodes"
def PROC_NODES_KEY : String := "proc_nodes"
def DEFAULT_NETWORK_KEY : String := "default_network"

/-! ## Writers (`put.rs`)

Each writer returns the list of remote invocations issued (each a full
argument list starting with the command name `FCALL`) and the
`FCallResult`.  `exec_async` transport failures are outside the embedding:
a returned `.ok` means the call was issued with the given arguments. -/

/-- `put.rs`: `put_dns`.  Builds the create-DNS fcall and issues it when the
record type and value are both given or both absent. -/
def put_dns (plugin name : String) (rtype value : Option String) :
    List (List RArg) × FCallResult Unit :=
  let cmd : List RArg := [.str "FCALL", .str CREATE_DNS_FN, .num 1, .str name, .str plugin]
  match rtype, value with
  | some r, some v => ([cmd ++ [.str r, .str v]], .ok ())
  | none, none => ([cmd], .ok ())
  | _, _ =>
      ([], .error (.WrongArgs CREATE_DNS_FN
        "record type and value must both be provided or neiher provided."))

/-- `put.rs`: `put_dns_plugin_data`. -/
def put_dns_plugin_data (plugin name pdata_id : String) (data : PluginData) :
    List (List RArg) × FCallResult Unit :=
  ([data.add_as_args
      [.str "FCALL", .str CREATE_DNS_PDATA_FN, .num 1, .str name, .str plugin, .str pdata_id]],
   .ok ())

/-- `put.rs`: `put_dns_metadata`.  `metadata` carries the map's iteration
order. -/
def put_dns_metadata (plugin name : String) (metadata : List (String × String)) :
    List (List RArg) × FCallResult Unit :=
  ([metadata.foldl (fun c kv => c ++ [.str kv.1, .str kv.2])
      [.str "FCALL", .str CREATE_DNS_METADATA_FN, .num 1, .str name, .str plugin]],
   .ok ())

/-- `put.rs`: `put_node`. -/
def put_node (plugin name : String) (dns_names : List String) (exclusive : Bool)
    (link_id : Option String) : List (List RArg) × FCallResult Unit :=
  let cmd := [.str "FCALL", .str CREATE_NODE_FN, .num dns_names.length] ++
    dns_names.map RArg.str ++ [.str plugin, .str name, .boolean exclusive]
  match link_id with
  | some l => ([cmd ++ [.str l]], .ok ())
  | none => ([cmd], .ok ())

/-- `put.rs`: `put_node_plugin_data`. -/
def put_node_plugin_data (plugin : String) (dns_names : List String) (pdata_id : String)
    (data : PluginData) : List (List RArg) × FCallResult Unit :=
  ([data.add_as_args
      ([.str "FCALL", .str CREATE_NODE_PDATA_FN, .num dns_names.length] ++
        dns_names.map RArg.str ++ [.str plugin, .str pdata_id])],
   .ok ())

/-- `put.rs`: `put_proc_node_plugin_data`. -/
def put_proc_node_plugin_data (plugin link_id pdata_id : String) (data : PluginData) :
    List (List RArg) × FCallResult Unit :=
  ([data.add_as_args
      [.str "FCALL", .str CREATE_PROC_NODE_PDATA_FN, .num 1, .str link_id, .str plugin,
        .str pdata_id]],
   .ok ())

/-- `put.rs`: `put_node_metadata`. -/
def put_node_metadata (plugin : String) (dns_names : List String)
    (metadata : List (String × String)) : List (List RArg) × FCallResult Unit :=
  ([metadata.foldl (fun c kv => c ++ [.str kv.1, .str kv.2])
      ([.str "FCALL", .str CREATE_NODE_METADATA_FN, .num dns_names.length] ++
        dns_names.map RArg.str ++ [.str plugin])],
   .ok ())

/-- `put.rs`: `put_proc_node_metadata`. -/
def put_proc_node_metadata (plugin link_id : String) (metadata : List (String × String)) :
    List (List RArg) × FCallResult Unit :=
  ([metadata.foldl (fun c kv => c ++ [.str kv.1, .str kv.2])
      [.str "FCALL", .str CREATE_PROC_NODE_METADATA_FN, .num 1, .str link_id, .str plugin]],
   .ok ())

/-- `put.rs`: `put_report`. -/
def put_report (plugin report_id title : String) (length : Nat) :
    List (List RArg) × FCallResult Unit :=
  ([[.str "FCALL", .str CREATE_REPORT_FN, .num 1, .str report_id, .str plugin, .str title,
      .num length]],
   .ok ())

/-- `put.rs`: `put_report_data`. -/
def put_report_data (plugin report_id : String) (index : Nat) (data : PluginData) :
    List (List RArg) × FCallResult Unit :=
  ([data.add_as_args
      [.str "FCALL", .str CREATE_REPORT_DATA_FN, .num 1, .str report_id, .str plugin,
        .num index]],
   .ok ())

/-! ## Readers (`get.rs`)

The backing redis store is abstracted as a deterministic state: scalar
string keys, set keys (`SMEMBERS`, returned in the store's enumeration
order, each member once), hash keys (`HGETALL`, returned as a binding list
with distinct keys), and the server-side name-qualification procedure.
A `GET` of a missing scalar key fails to convert to `String` in rust and
surfaces as a redis error. -/

/-- The abstract store state a multiplexed connection reads from. -/
structure Store where
  strings : String → Option String
  sets : String → List String
  hashes : String → List (String × String)
  qualify : Nat → List String → List String

/-- `HashMap::insert` semantics on a binding list: overwrite the binding of
`k` if present, bind it to `v`. -/
def insertKV (m : List (String × String)) (k v : String) : List (String × String) :=
  m.filter (fun p => p.1 ≠ k) ++ [(k, v)]

/-- `HashMap::extend` semantics on binding lists: insert every binding of
`new` into `m` in order, overwriting existing bindings. -/
def extendMap (m new : List (String × String)) : List (String × String) :=
  new.foldl (fun acc kv => insertKV acc kv.1 kv.2) m

/-- `get.rs`: `get_default_network`. -/
def get_default_network (store : Store) : FCallResult String :=
  match store.strings DEFAULT_NETWORK_KEY with
  | some v => .ok v
  | none => .error (.Redis "response was of incompatible type")

/-- `get.rs`: `qualify_dns_names`.  Invokes the qualification procedure with
the number of names followed by the names. -/
def qualify_dns_names (store : Store) (names : List String) : FCallResult (List String) :=
  .ok (store.qualify names.length names)

/-- `get.rs`: `get_dns_names`. -/
def get_dns_names (store : Store) : FCallResult (List String) :=
  .ok (store.sets DNS_KEY)

/-- `get.rs`: `get_node`.  Fetches the display name (a missing key is a
redis error) and the four per-field sets. -/
def get_node (store : Store) (link_id : String) : FCallResult Node :=
  match store.strings (PROC_NODES_KEY ++ ";" ++ link_id) with
  | none => .error (.Redis "response was of incompatible type")
  | some name =>
      .ok { name := name
            link_id := link_id
            alt_names := store.sets (PROC_NODES_KEY ++ ";" ++ link_id ++ ";alt_names")
            dns_names := store.sets (PROC_NODES_KEY ++ ";" ++ link_id ++ ";dns_names")
            raw_ids := store.sets (PROC_NODES_KEY ++ ";" ++ link_id ++ ";raw_ids")
            plugins := store.sets (PROC_NODES_KEY ++ ";" ++ link_id ++ ";plugins") }

/-- `get.rs`: the loop body of `get_nodes`: push `get_node` results onto the
accumulator, stopping at the first error. -/
def get_nodes_loop (store : Store) (acc : List Node) : List String → FCallResult (List Node)
  | [] => .ok acc
  | link_id :: rest =>
      match get_node store link_id with
      | .error e => .error e
      | .ok node => get_nodes_loop store (acc ++ [node]) rest

/-- `get.rs`: `get_nodes`.  Enumerates the processed-node set and fetches
each node individually. -/
def get_nodes (store : Store) : FCallResult (List Node) :=
  get_nodes_loop store [] (store.sets PROC_NODES_KEY)

/-- `get.rs`: `get_dns_metadata`.  Qualifies the single name, then fetches
the metadata hash keyed by the qualified name; zero names back is a `Logic`
error. -/
def get_dns_metadata (store : Store) (name : String) : FCallResult (List (String × String)) :=
  match qualify_dns_names store [name] with
  | .error e => .error e
  | .ok qnames =>
      match qnames.head? with
      | none => .error (.Logic "Tried to qualify one DNS name but got zero back.")
      | some qualified_name =>
          .ok (store.hashes (META_KEY ++ ";" ++ DNS_KEY ++ ";" ++ qualified_name))

/-- Key of the metadata hash of a raw node. -/
def rawMetaKey (raw_id : String) : String := META_KEY ++ ";" ++ NODES_KEY ++ ";" ++ raw_id

/-- Key of the metadata hash of a processed node. -/
def procMetaKey (link_id : String) : String :=
  META_KEY ++ ";" ++ PROC_NODES_KEY ++ ";" ++ link_id

/-- `get.rs`: the raw-node half of `get_node_metadata`: extend an empty map
with each raw node's metadata hash, in the iteration order of `raw_ids`. -/
def mergeRawMeta (store : Store) (raw_ids : List String) : List (String × String) :=
  raw_ids.foldl (fun meta raw_id => extendMap meta (store.hashes (rawMetaKey raw_id))) []

/-- `get.rs`: `get_node_metadata`.  Merges the raw nodes' metadata hashes,
then extends with the processed node's own metadata hash. -/
def get_node_metadata (store : Store) (node : Node) : FCallResult (List (String × String)) :=
  .ok (extendMap (mergeRawMeta store node.raw_ids) (store.hashes (procMetaKey node.link_id)))

/-! ## Reference decoder for the encoding round trip

The spec's round-trip law (§8 property 1) speaks of "a reference decoder"
parsing the argument sequence that `add_as_args` produced.  The consumers of
the encoding are the server-side procedures, which are not part of this
repository, so the decoder below is modelled from the spec's description of
the encoding (§4.2). -/

/-- Group a run of string arguments into consecutive (key, value) pairs. -/
def pairUp : List RArg → Option (List (String × String))
  | [] => some []
  | .str k :: .str v :: rest => (pairUp rest).map (fun t => (k, v) :: t)
  | _ => none

/-- Group a run of string arguments into consecutive triples. -/
def tripleUp : List RArg → Option (List (String × String × String))
  | [] => some []
  | .str a :: .str b :: .str c :: rest => (tripleUp rest).map (fun t => (a, b, c) :: t)
  | _ => none

/-- Parse a content-type tag argument. -/
def parseContentType : RArg → Option StringContentType
  | .str "html" => some .HTML
  | .str "markdown" => some .Markdown
  | .str "plain" => some .Plain
  | _ => none

/-- Table cells must all be string arguments. -/
def allCells : List RArg → Option (List String)
  | [] => some []
  | .str s :: rest => (allCells rest).map (fun t => s :: t)
  | _ => none

/-- Reconstruct table rows from a flat cell list using the declared column
count: repeatedly take one row of `num_columns` cells.  Leftover cells short
of a full row still form a final row; a positive number of cells with a
declared count of zero cannot be split into rows.  Each step consumes at
least one cell, so a fuel of `cells.length` always suffices; the fuel only
makes the recursion structural. -/
def chunkRowsFuel (num_columns : Nat) : Nat → List String → Option (List (List String))
  | _, [] => some []
  | 0, _ :: _ => none
  | fuel + 1, c :: cs =>
      match num_columns with
      | 0 => none
      | n + 1 =>
          (chunkRowsFuel (n + 1) fuel ((c :: cs).drop (n + 1))).map
            (fun rs => (c :: cs).take (n + 1) :: rs)

/-- Reconstruct table rows from a flat cell list (see `chunkRowsFuel`). -/
def chunkRows (num_columns : Nat) (cells : List String) : Option (List (List String)) :=
  chunkRowsFuel num_columns cells.length cells

/-- Modelled from the spec: the reference decoder of §8 property 1, reading
back the argument sequence `add_as_args` produced (tag, title, then the
variant's fields in the documented order; table rows reconstructed using the
declared column count). -/
def decodePluginData (args : List RArg) : Option PluginData :=
  match args with
  | .str "hash" :: .str title :: rest => (pairUp rest).map (PluginData.Hash title)
  | .str "list" :: .str title :: rest => (tripleUp rest).map (PluginData.List title)
  | [.str "string", .str title, ct, .str content] =>
      (parseContentType ct).map (fun c => PluginData.String title c content)
  | .str "table" :: .str title :: .num num_columns :: rest =>
      (allCells rest).bind (fun cells =>
        (chunkRows num_columns cells).map (PluginData.Table title num_columns))
  | _ => none

/-- A table is well formed when each row has exactly the declared number of
cells and a zero column count comes with no rows; the other variants are
always well formed (§3). -/
def PluginData.wellFormed : PluginData → Prop
  | .Table _ num_columns rows =>
      (∀ row ∈ rows, row.length = num_columns) ∧ (num_columns = 0 → rows = [])
  | _ => True

instance (data : PluginData) : Decidable data.wellFormed := by
  cases data <;> simp [PluginData.wellFormed] <;> infer_instance

/-! ## Normal forms of the argument encoders -/

theorem foldl_pair_args (items : List (String × String)) (c : RArgs) :
    items.foldl (fun c2 kv => c2 ++ [.str kv.1, .str kv.2]) c =
      c ++ (items.map (fun kv => [RArg.str kv.1, RArg.str kv.2])).flatten := by
  induction items generalizing c with
  | nil => simp
  | cons a t ih => simp [ih]

theorem foldl_triple_args (items : List (String × String × String)) (c : RArgs) :
    items.foldl (fun c2 t => c2 ++ [.str t.1, .str t.2.1, .str t.2.2]) c =
      c ++ (items.map (fun t => [RArg.str t.1, RArg.str t.2.1, RArg.str t.2.2])).flatten := by
  induction items generalizing c with
  | nil => simp
  | cons a t ih => simp [ih]

theorem foldl_row_args (row : List String) (c : RArgs) :
    row.foldl (fun c2 col => c2 ++ [.str col]) c = c ++ row.map RArg.str := by
  induction row generalizing c with
  | nil => simp
  | cons a t ih => simp [ih]

theorem foldl_rows_args (rows : List (List String)) (c : RArgs) :
    rows.foldl (fun c2 row => row.foldl (fun c3 col => c3 ++ [.str col]) c2) c =
      c ++ rows.flatten.map RArg.str := by
  induction rows generalizing c with
  | nil => simp
  | cons a t ih => rw [List.foldl_cons, foldl_row_args, ih]; simp

theorem add_as_args_hash (title : String) (items : List (String × String)) (cmd : RArgs) :
    (PluginData.Hash title items).add_as_args cmd =
      cmd ++ [.str "hash", .str title] ++
        (items.map (fun kv => [RArg.str kv.1, RArg.str kv.2])).flatten := by
  simp [PluginData.add_as_args, foldl_pair_args]

theorem add_as_args_list (title : String) (items : List (String × String × String))
    (cmd : RArgs) :
    (PluginData.List title items).add_as_args cmd =
      cmd ++ [.str "list", .str title] ++
        (items.map (fun t => [RArg.str t.1, RArg.str t.2.1, RArg.str t.2.2])).flatten := by
  simp [PluginData.add_as_args, foldl_triple_args]

theorem add_as_args_string (title : String) (content_type : StringContentType)
    (content : String) (cmd : RArgs) :
    (PluginData.String title content_type content).add_as_args cmd =
      cmd ++ [.str "string", .str title, content_type.toArg, .str content] := by
  simp [PluginData.add_as_args]

theorem add_as_args_table (title : String) (num_columns : Nat) (rows : List (List String))
    (cmd : RArgs) :
    (PluginData.Table title num_columns rows).add_as_args cmd =
      cmd ++ [.str "table", .str title, .num num_columns] ++ rows.flatten.map RArg.str := by
  simp [PluginData.add_as_args, foldl_rows_args]

theorem add_as_args_append (data : PluginData) (cmd : RArgs) :
    data.add_as_args cmd = cmd ++ data.add_as_args [] := by
  cases data <;>
    simp [add_as_args_hash, add_as_args_list, add_as_args_string, add_as_args_table]

/-- C6: for every `Table` plugin-data value, including values whose row
lengths disagree with `num_columns`, the encoder emits the tag `"table"`,
the title, the declared column count, and then every cell of every row in
row-major order; it performs no row-length validation and never fails (it is
total and its output is this normal form for arbitrary `rows`). -/
theorem table_encoding_row_major (title : String) (num_columns : Nat)
    (rows : List (List String)) (cmd : RArgs) :
    (PluginData.Table title num_columns rows).add_as_args cmd =
      cmd ++ [.str "table", .str title, .num num_columns] ++
        (rows.flatten.map RArg.str) := by
  simp [PluginData.add_as_args, foldl_rows_args]

/-- C2: `put_dns` succeeds and issues the call when record type and value
are both given or both absent; when only one of them is given it returns a
`WrongArgs` error naming the DNS-creation procedure `netdox_create_dns`;
and no other writer operation fails validation on any input. -/
theorem put_dns_validation :
    (∀ plugin name rtype value,
        (put_dns plugin name (some rtype) (some value)).2 = .ok () ∧
        (put_dns plugin name (some rtype) (some value)).1.length = 1) ∧
    (∀ plugin name,
        (put_dns plugin name none none).2 = .ok () ∧
        (put_dns plugin name none none).1.length = 1) ∧
    (∀ plugin name rtype,
        (put_dns plugin name (some rtype) none).2 =
          .error (.WrongArgs "netdox_create_dns"
            "record type and value must both be provided or neiher provided.")) ∧
    (∀ plugin name value,
        (put_dns plugin name none (some value)).2 =
          .error (.WrongArgs "netdox_create_dns"
            "record type and value must both be provided or neiher provided.")) ∧
    (∀ plugin name pdata_id data,
        (put_dns_plugin_data plugin name pdata_id data).2 = .ok ()) ∧
    (∀ plugin name metadata, (put_dns_metadata plugin name metadata).2 = .ok ()) ∧
    (∀ plugin name dns_names exclusive link_id,
        (put_node plugin name dns_names exclusive link_id).2 = .ok ()) ∧
    (∀ plugin dns_names pdata_id data,
        (put_node_plugin_data plugin dns_names pdata_id data).2 = .ok ()) ∧
    (∀ plugin link_id pdata_id data,
        (put_proc_node_plugin_data plugin link_id pdata_id data).2 = .ok ()) ∧
    (∀ plugin dns_names metadata, (put_node_metadata plugin dns_names metadata).2 = .ok ()) ∧
    (∀ plugin link_id metadata, (put_proc_node_metadata plugin link_id metadata).2 = .ok ()) ∧
    (∀ plugin report_id title length, (put_report plugin report_id title length).2 = .ok ()) ∧
    (∀ plugin report_id index data, (put_report_data plugin report_id index data).2 = .ok ()) := by
  refine ⟨fun _ _ _ _ => ⟨rfl, rfl⟩, fun _ _ => ⟨rfl, rfl⟩, fun _ _ _ => rfl, fun _ _ _ => rfl,
    fun _ _ _ _ => rfl, fun _ _ _ => rfl, fun _ _ _ _ link_id => ?_, fun _ _ _ _ => rfl,
    fun _ _ _ _ => rfl, fun _ _ _ => rfl, fun _ _ _ => rfl, fun _ _ _ _ => rfl,
    fun _ _ _ _ => rfl⟩
  cases link_id <;> rfl

/-- C8: whenever `put_dns` returns a `WrongArgs` error, its invocation list
is empty: the error is returned before and without issuing any remote
procedure invocation. -/
theorem put_dns_error_no_invocation (plugin name : String) (rtype value : Option String)
    (function problem : String)
    (h : (put_dns plugin name rtype value).2 = .error (.WrongArgs function problem)) :
    (put_dns plugin name rtype value).1 = [] := by
  cases rtype <;> cases value <;> simp [put_dns] at h ⊢

/-- Witness for C8 at the spec's concrete failing input. -/
theorem put_dns_error_no_invocation_witness :
    (put_dns "plugin" "a.example" (some "A") none).1 = [] :=
  put_dns_error_no_invocation "plugin" "a.example" (some "A") none CREATE_DNS_FN
    "record type and value must both be provided or neiher provided." rfl

/-- C10: `RedisArgs::to_client` panics (the `unwrap` of a `None` password,
modelled by `none`) exactly when a username is supplied without a password;
for every other username/password combination the construction returns
normally. -/
theorem to_client_panics_iff_username_without_password (args : RedisArgs) :
    args.to_client = none ↔ args.username.isSome = true ∧ args.password = none := by
  obtain ⟨host, port, db, username, password⟩ := args
  cases username <;> cases password <;> simp [RedisArgs.to_client]

/-- C7: every issued writer invocation carries the count of key arguments
immediately before the key arguments themselves, and that count is the
number of keys of the operation: `1` for the single-key operations and
`dns_names.length` for the node operations keyed by DNS names. -/
theorem writer_key_count_precedes_keys :
    (∀ plugin name rtype value, ∃ rest,
        (put_dns plugin name (some rtype) (some value)).1 =
          [[RArg.str "FCALL", RArg.str CREATE_DNS_FN, RArg.num 1] ++ [RArg.str name] ++ rest]) ∧
    (∀ plugin name, ∃ rest,
        (put_dns plugin name none none).1 =
          [[RArg.str "FCALL", RArg.str CREATE_DNS_FN, RArg.num 1] ++ [RArg.str name] ++ rest]) ∧
    (∀ plugin name pdata_id data, ∃ rest,
        (put_dns_plugin_data plugin name pdata_id data).1 =
          [[RArg.str "FCALL", RArg.str CREATE_DNS_PDATA_FN, RArg.num 1] ++
            [RArg.str name] ++ rest]) ∧
    (∀ plugin name metadata, ∃ rest,
        (put_dns_metadata plugin name metadata).1 =
          [[RArg.str "FCALL", RArg.str CREATE_DNS_METADATA_FN, RArg.num 1] ++
            [RArg.str name] ++ rest]) ∧
    (∀ plugin name dns_names exclusive link_id, ∃ rest,
        (put_node plugin name dns_names exclusive link_id).1 =
          [[RArg.str "FCALL", RArg.str CREATE_NODE_FN, RArg.num dns_names.length] ++
            dns_names.map RArg.str ++ rest]) ∧
    (∀ plugin dns_names pdata_id data, ∃ rest,
        (put_node_plugin_data plugin dns_names pdata_id data).1 =
          [[RArg.str "FCALL", RArg.str CREATE_NODE_PDATA_FN, RArg.num dns_names.length] ++
            dns_names.map RArg.str ++ rest]) ∧
    (∀ plugin link_id pdata_id data, ∃ rest,
        (put_proc_node_plugin_data plugin link_id pdata_id data).1 =
          [[RArg.str "FCALL", RArg.str CREATE_PROC_NODE_PDATA_FN, RArg.num 1] ++
            [RArg.str link_id] ++ rest]) ∧
    (∀ plugin dns_names metadata, ∃ rest,
        (put_node_metadata plugin dns_names metadata).1 =
          [[RArg.str "FCALL", RArg.str CREATE_NODE_METADATA_FN, RArg.num dns_names.length] ++
            dns_names.map RArg.str ++ rest]) ∧
    (∀ plugin link_id metadata, ∃ rest,
        (put_proc_node_metadata plugin link_id metadata).1 =
          [[RArg.str "FCALL", RArg.str CREATE_PROC_NODE_METADATA_FN, RArg.num 1] ++
            [RArg.str link_id] ++ rest]) ∧
    (∀ plugin report_id title length, ∃ rest,
        (put_report plugin report_id title length).1 =
          [[RArg.str "FCALL", RArg.str CREATE_REPORT_FN, RArg.num 1] ++
            [RArg.str report_id] ++ rest]) ∧
    (∀ plugin report_id index data, ∃ rest,
        (put_report_data plugin report_id index data).1 =
          [[RArg.str "FCALL", RArg.str CREATE_REPORT_DATA_FN, RArg.num 1] ++
            [RArg.str report_id] ++ rest]) := by
  refine ⟨?_, ?_, ?_, ?_, ?_, ?_, ?_, ?_, ?_, ?_, ?_⟩
  · exact fun plugin name rtype value =>
      ⟨[RArg.str plugin, RArg.str rtype, RArg.str value], rfl⟩
  · exact fun plugin name => ⟨[RArg.str plugin], rfl⟩
  · exact fun plugin name pdata_id data =>
      ⟨[RArg.str plugin, RArg.str pdata_id] ++ data.add_as_args [],
        by simp only [put_dns_plugin_data]; rw [add_as_args_append]; simp⟩
  · exact fun plugin name metadata =>
      ⟨[RArg.str plugin] ++ (metadata.map (fun kv => [RArg.str kv.1, RArg.str kv.2])).flatten,
        by simp [put_dns_metadata, foldl_pair_args]⟩
  · intro plugin name dns_names exclusive link_id
    cases link_id with
    | none =>
        exact ⟨[RArg.str plugin, RArg.str name, RArg.boolean exclusive], by simp [put_node]⟩
    | some l =>
        exact ⟨[RArg.str plugin, RArg.str name, RArg.boolean exclusive, RArg.str l],
          by simp [put_node]⟩
  · exact fun plugin dns_names pdata_id data =>
      ⟨[RArg.str plugin, RArg.str pdata_id] ++ data.add_as_args [],
        by simp only [put_node_plugin_data]; rw [add_as_args_append]; simp⟩
  · exact fun plugin link_id pdata_id data =>
      ⟨[RArg.str plugin, RArg.str pdata_id] ++ data.add_as_args [],
        by simp only [put_proc_node_plugin_data]; rw [add_as_args_append]; simp⟩
  · exact fun plugin dns_names metadata =>
      ⟨[RArg.str plugin] ++ (metadata.map (fun kv => [RArg.str kv.1, RArg.str kv.2])).flatten,
        by simp [put_node_metadata, foldl_pair_args]⟩
  · exact fun plugin link_id metadata =>
      ⟨[RArg.str plugin] ++ (metadata.map (fun kv => [RArg.str kv.1, RArg.str kv.2])).flatten,
        by simp [put_proc_node_metadata, foldl_pair_args]⟩
  · exact fun plugin report_id title length =>
      ⟨[RArg.str plugin, RArg.str title, RArg.num length], rfl⟩
  · exact fun plugin report_id index data =>
      ⟨[RArg.str plugin, RArg.num index] ++ data.add_as_args [],
        by simp only [put_report_data]; rw [add_as_args_append]; simp⟩

/-! ## The encoding round trip (C1) -/

theorem pairUp_flatten (items : List (String × String)) :
    pairUp ((items.map (fun kv => [RArg.str kv.1, RArg.str kv.2])).flatten) = some items := by
  induction items with
  | nil => rfl
  | cons a t ih => simp [pairUp, ih]

theorem tripleUp_flatten (items : List (String × String × String)) :
    tripleUp ((items.map (fun t => [RArg.str t.1, RArg.str t.2.1, RArg.str t.2.2])).flatten) =
      some items := by
  induction items with
  | nil => rfl
  | cons a t ih => simp [tripleUp, ih]

theorem allCells_map (cells : List String) : allCells (cells.map RArg.str) = some cells := by
  induction cells with
  | nil => rfl
  | cons a t ih => simp [allCells, ih]

theorem parseContentType_toArg (content_type : StringContentType) :
    parseContentType content_type.toArg = some content_type := by
  cases content_type <;> rfl

theorem chunkRowsFuel_flatten (n : Nat) (rows : List (List String)) (fuel : Nat)
    (hf : rows.flatten.length ≤ fuel) (hlen : ∀ row ∈ rows, row.length = n + 1) :
    chunkRowsFuel (n + 1) fuel rows.flatten = some rows := by
  induction rows generalizing fuel with
  | nil => cases fuel <;> rfl
  | cons r rs ih =>
      have hr : r.length = n + 1 := hlen r (by simp)
      cases fuel with
      | zero =>
          exfalso
          rw [List.flatten_cons, List.length_append, hr] at hf
          omega
      | succ f =>
          cases r with
          | nil => simp at hr
          | cons c cs =>
              have hdrop : ((c :: cs) ++ rs.flatten).drop (n + 1) = rs.flatten := by
                rw [← hr]; exact List.drop_left (c :: cs) rs.flatten
              have htake : ((c :: cs) ++ rs.flatten).take (n + 1) = c :: cs := by
                rw [← hr]; exact List.take_left (c :: cs) rs.flatten
              have hfl : rs.flatten.length ≤ f := by
                rw [List.flatten_cons, List.length_append, hr] at hf
                omega
              have hrest : ∀ row ∈ rs, row.length = n + 1 :=
                fun row hrow => hlen row (by simp [hrow])
              simp only [List.flatten_cons, List.cons_append, chunkRowsFuel, List.append_eq]
              rw [← List.cons_append, hdrop, htake, ih f hfl hrest]
              rfl

theorem chunkRows_flatten (num_columns : Nat) (rows : List (List String))
    (hlen : ∀ row ∈ rows, row.length = num_columns)
    (hz : num_columns = 0 → rows = []) :
    chunkRows num_columns rows.flatten = some rows := by
  cases num_columns with
  | zero => rw [hz rfl]; rfl
  | succ n => exact chunkRowsFuel_flatten n rows rows.flatten.length le_rfl hlen

/-- C1 (amended): for every `PluginData` value that is well formed — every
`Table` row has exactly `num_columns` cells, and a zero column count comes
with no rows — encoding with `add_as_args` and parsing the produced argument
sequence with the reference decoder reproduces the original title, content
and ordered structure exactly (`Hash` pairs are reproduced in the encoded
order, hence in particular as a set). -/
theorem encode_decode_roundtrip (data : PluginData) (h : data.wellFormed) :
    decodePluginData (data.add_as_args []) = some data := by
  cases data with
  | Hash title items =>
      rw [add_as_args_hash]
      simp [decodePluginData, pairUp_flatten]
  | List title items =>
      rw [add_as_args_list]
      simp [decodePluginData, tripleUp_flatten]
  | String title content_type content =>
      rw [add_as_args_string]
      simp [decodePluginData, parseContentType_toArg]
  | Table title num_columns rows =>
      obtain ⟨hlen, hz⟩ := h
      rw [add_as_args_table]
      simp only [List.nil_append, List.cons_append, decodePluginData, allCells_map,
        Option.some_bind]
      rw [chunkRows_flatten num_columns rows hlen hz]
      rfl

/-- Witness for the amended C1 at a concrete well-formed table. -/
theorem encode_decode_roundtrip_witness :
    (PluginData.Table "t" 2 [["a", "b"], ["c", "d"]]).wellFormed ∧
    decodePluginData ((PluginData.Table "t" 2 [["a", "b"], ["c", "d"]]).add_as_args []) =
      some (PluginData.Table "t" 2 [["a", "b"], ["c", "d"]]) :=
  ⟨by decide, encode_decode_roundtrip (PluginData.Table "t" 2 [["a", "b"], ["c", "d"]])
    (by decide)⟩

/-- C1 counterexample: the table titled `"t"` declaring one column with rows
`[["a"], ["b", "c"]]` (a row length disagreeing with the declared count)
encodes to `table, t, 1, a, b, c`, which the reference decoder reads back as
the three rows `[["a"], ["b"], ["c"]]`, not the original rows, so the
round-trip law fails for it. -/
theorem encode_decode_ragged_table_counterexample :
    decodePluginData ((PluginData.Table "t" 1 [["a"], ["b", "c"]]).add_as_args []) =
      some (PluginData.Table "t" 1 [["a"], ["b"], ["c"]]) ∧
    decodePluginData ((PluginData.Table "t" 1 [["a"], ["b", "c"]]).add_as_args []) ≠
      some (PluginData.Table "t" 1 [["a"], ["b", "c"]]) := by
  constructor <;> decide

/-! ## Lookup lemmas for the metadata merge -/

theorem lookup_append_or (l1 l2 : List (String × String)) (k : String) :
    (l1 ++ l2).lookup k = (l1.lookup k).or (l2.lookup k) := by
  induction l1 with
  | nil => simp [Option.none_or]
  | cons a t ih => by_cases h : k == a.1 <;> simp [List.lookup, h, ih]

theorem lookup_isSome_iff_mem_keys (l : List (String × String)) (k : String) :
    (l.lookup k).isSome ↔ k ∈ l.map Prod.fst := by
  induction l with
  | nil => simp
  | cons a t ih => by_cases h : k == a.1 <;> simp [List.lookup, h] <;> simp at h <;> simp [h, ih]

theorem lookup_eq_none_of_not_mem_keys (l : List (String × String)) (k : String)
    (h : k ∉ l.map Prod.fst) : l.lookup k = none := by
  cases hl : l.lookup k with
  | none => rfl
  | some v =>
      exfalso
      exact h ((lookup_isSome_iff_mem_keys l k).mp (by simp [hl]))

theorem lookup_nil (k : String) : (([] : List (String × String)).lookup k) = none := rfl

theorem lookup_cons (a : String × String) (t : List (String × String)) (k : String) :
    (a :: t).lookup k = if k = a.1 then some a.2 else t.lookup k := by
  obtain ⟨a1, a2⟩ := a
  by_cases h : k = a1
  · simp [List.lookup, h]
  · have hb : (k == a1) = false := by simp [h]
    simp [List.lookup, hb, h]

theorem lookup_filter_self (m : List (String × String)) (k : String) :
    (m.filter (fun p => p.1 ≠ k)).lookup k = none := by
  induction m with
  | nil => rfl
  | cons a t ih =>
      by_cases h : a.1 = k
      · rw [List.filter_cons, if_neg (by simp [h])]
        exact ih
      · rw [List.filter_cons, if_pos (by simp [h]), lookup_cons,
          if_neg (fun hk => h hk.symm)]
        exact ih

theorem lookup_filter_ne (m : List (String × String)) (k k' : String) (h : k' ≠ k) :
    (m.filter (fun p => p.1 ≠ k)).lookup k' = m.lookup k' := by
  induction m with
  | nil => rfl
  | cons a t ih =>
      by_cases hak : a.1 = k
      · rw [List.filter_cons, if_neg (by simp [hak]), ih, lookup_cons a t k',
          if_neg (by rw [hak]; exact h)]
      · rw [List.filter_cons, if_pos (by simp [hak]),
          lookup_cons a (t.filter (fun p => p.1 ≠ k)) k', lookup_cons a t k', ih]

theorem lookup_insertKV (m : List (String × String)) (k v k' : String) :
    (insertKV m k v).lookup k' = if k' = k then some v else m.lookup k' := by
  by_cases h : k' = k
  · subst h
    rw [insertKV, lookup_append_or, lookup_filter_self, Option.none_or,
      lookup_cons (k', v) [] k', if_pos rfl, if_pos rfl]
  · rw [insertKV, lookup_append_or, lookup_filter_ne m k k' h,
      lookup_cons (k, v) [] k', if_neg h, lookup_nil, Option.or_none, if_neg h]

theorem lookup_extendMap (m new : List (String × String)) (k : String) :
    (extendMap m new).lookup k = (new.reverse.lookup k).or (m.lookup k) := by
  induction new generalizing m with
  | nil => simp [extendMap, Option.none_or]
  | cons a t ih =>
      have step : extendMap m (a :: t) = extendMap (insertKV m a.1 a.2) t := rfl
      rw [step, ih, lookup_insertKV, List.reverse_cons, lookup_append_or,
        lookup_cons a [] k, lookup_nil]
      by_cases h : k = a.1
      · rw [if_pos h, if_pos h, Option.or_assoc]
        rfl
      · rw [if_neg h, if_neg h, Option.or_assoc, Option.none_or]

theorem lookup_reverse_of_nodup (l : List (String × String))
    (h : (l.map Prod.fst).Nodup) (k : String) :
    l.reverse.lookup k = l.lookup k := by
  induction l with
  | nil => rfl
  | cons a t ih =>
      rw [List.reverse_cons, lookup_append_or, lookup_cons a [] k, lookup_nil,
        lookup_cons a t k]
      simp only [List.map_cons, List.nodup_cons] at h
      obtain ⟨hhead, htail⟩ := h
      by_cases hk : k = a.1
      · have h1 : t.lookup k = none := by
          refine lookup_eq_none_of_not_mem_keys t k ?_
          rw [hk]; exact hhead
        have h2 : t.reverse.lookup k = none := by
          refine lookup_eq_none_of_not_mem_keys t.reverse k ?_
          rw [hk]; simpa using hhead
        rw [h2, Option.none_or, if_pos hk, if_pos hk]
      · rw [if_neg hk, if_neg hk, Option.or_none, ih htail]

theorem or_isSome_right (a b : Option String) (h : b.isSome) : (a.or b).isSome := by
  cases a with
  | some x => rfl
  | none => rw [Option.none_or]; exact h

theorem or_isSome_left (a b : Option String) (h : a.isSome) : (a.or b).isSome := by
  cases a with
  | some x => rfl
  | none => exact absurd h (by simp)

theorem lookup_foldl_extendMap_some (store : Store) (rids : List String)
    (acc : List (String × String)) (k v : String)
    (h : ((rids.foldl (fun meta rid => extendMap meta (store.hashes (rawMetaKey rid)))
        acc).lookup k) = some v) :
    (∃ rid ∈ rids, (store.hashes (rawMetaKey rid)).reverse.lookup k = some v) ∨
      acc.lookup k = some v := by
  induction rids generalizing acc with
  | nil => exact .inr h
  | cons r rs ih =>
      rw [List.foldl_cons] at h
      rcases ih (extendMap acc (store.hashes (rawMetaKey r))) h with h1 | h2
      · obtain ⟨rid, hmem, hr⟩ := h1
        exact .inl ⟨rid, List.mem_cons_of_mem r hmem, hr⟩
      · rw [lookup_extendMap] at h2
        cases heq : (store.hashes (rawMetaKey r)).reverse.lookup k with
        | some w =>
            rw [heq] at h2
            have hw : w = v := Option.some.inj h2
            exact .inl ⟨r, List.mem_cons_self r rs, heq.trans (by rw [hw])⟩
        | none =>
            rw [heq, Option.none_or] at h2
            exact .inr h2

theorem lookup_foldl_extendMap_isSome (store : Store) (rids : List String)
    (acc : List (String × String)) (k : String)
    (h : (∃ rid ∈ rids, ((store.hashes (rawMetaKey rid)).lookup k).isSome) ∨
      (acc.lookup k).isSome) :
    ((rids.foldl (fun meta rid => extendMap meta (store.hashes (rawMetaKey rid)))
        acc).lookup k).isSome := by
  induction rids generalizing acc with
  | nil =>
      rcases h with ⟨rid, hmem, _⟩ | h2
      · exact absurd hmem (List.not_mem_nil rid)
      · exact h2
  | cons r rs ih =>
      rw [List.foldl_cons]
      apply ih
      rcases h with ⟨rid, hmem, hs⟩ | h2
      · rcases List.mem_cons.mp hmem with rfl | hmem2
        · right
          rw [lookup_extendMap]
          have hrev : ((store.hashes (rawMetaKey rid)).reverse.lookup k).isSome := by
            rw [lookup_isSome_iff_mem_keys] at hs ⊢
            rw [List.map_reverse, List.mem_reverse]
            exact hs
          exact or_isSome_left _ _ hrev
        · exact .inl ⟨rid, hmem2, hs⟩
      · right
        rw [lookup_extendMap]
        exact or_isSome_right _ _ h2

/-- C3: `get_node_metadata` returns the union of the raw nodes' metadata
hashes (keyed by the node's `raw_ids`) overlaid by the processed node's own
metadata hash: every binding of the processed-node hash is in the result, a
key bound in any raw hash is in the result, and every binding of the result
comes from the processed-node hash or from some raw hash, with the
processed-node value winning for keys bound in both.  The hypotheses state
the redis hash invariant that `HGETALL` returns distinct keys. -/
theorem get_node_metadata_union_overlay (store : Store) (node : Node)
    (hraw : ∀ rid ∈ node.raw_ids, ((store.hashes (rawMetaKey rid)).map Prod.fst).Nodup)
    (hproc : ((store.hashes (procMetaKey node.link_id)).map Prod.fst).Nodup) :
    ∃ meta, get_node_metadata store node = .ok meta ∧
      (∀ k v, (store.hashes (procMetaKey node.link_id)).lookup k = some v →
        meta.lookup k = some v) ∧
      (∀ k v, meta.lookup k = some v →
        (store.hashes (procMetaKey node.link_id)).lookup k = some v ∨
          ∃ rid ∈ node.raw_ids, (store.hashes (rawMetaKey rid)).lookup k = some v) ∧
      (∀ k, (∃ rid ∈ node.raw_ids, ((store.hashes (rawMetaKey rid)).lookup k).isSome) →
        (meta.lookup k).isSome) := by
  refine ⟨extendMap (mergeRawMeta store node.raw_ids)
      (store.hashes (procMetaKey node.link_id)), rfl, ?_, ?_, ?_⟩
  · intro k v hk
    rw [lookup_extendMap, lookup_reverse_of_nodup _ hproc, hk]
    rfl
  · intro k v hk
    rw [lookup_extendMap, lookup_reverse_of_nodup _ hproc] at hk
    cases hp : (store.hashes (procMetaKey node.link_id)).lookup k with
    | some w =>
        rw [hp] at hk
        exact .inl hk
    | none =>
        rw [hp, Option.none_or] at hk
        rcases lookup_foldl_extendMap_some store node.raw_ids [] k v hk with
          ⟨rid, hmem, hr⟩ | habs
        · refine .inr ⟨rid, hmem, ?_⟩
          rw [← lookup_reverse_of_nodup _ (hraw rid hmem)]
          exact hr
        · rw [lookup_nil] at habs
          exact Option.noConfusion habs
  · intro k hk
    rw [lookup_extendMap]
    exact or_isSome_right _ _
      (lookup_foldl_extendMap_isSome store node.raw_ids [] k (.inl hk))

/-- The store of §8 property 3: raw node `r1` and `r2` metadata plus the
processed node `L`'s own metadata. -/
def exampleStore : Store where
  strings := fun _ => none
  sets := fun _ => []
  hashes := fun key =>
    if key = rawMetaKey "r1" then [("owner", "team-b"), ("env", "prod")]
    else if key = rawMetaKey "r2" then [("region", "eu")]
    else if key = procMetaKey "L" then [("owner", "team-a")]
    else []
  qualify := fun _ _ => []

/-- The processed node of §8 property 3. -/
def exampleNode : Node where
  name := "n"
  link_id := "L"
  alt_names := []
  dns_names := []
  raw_ids := ["r1", "r2"]
  plugins := []

/-- Witness for C3 at the spec's concrete example: the merged metadata
contains `env = prod`, `region = eu`, and the processed node's
`owner = team-a` wins over raw node r1's `owner = team-b`. -/
theorem get_node_metadata_union_overlay_witness :
    (∀ rid ∈ exampleNode.raw_ids,
      ((exampleStore.hashes (rawMetaKey rid)).map Prod.fst).Nodup) ∧
    ∃ meta, get_node_metadata exampleStore exampleNode = .ok meta ∧
      meta.lookup "owner" = some "team-a" ∧
      meta.lookup "env" = some "prod" ∧
      meta.lookup "region" = some "eu" := by
  refine ⟨by decide, ?_⟩
  obtain ⟨meta, hmeta, hover, _, _⟩ :=
    get_node_metadata_union_overlay exampleStore exampleNode (by decide) (by decide)
  have hcomp : get_node_metadata exampleStore exampleNode =
      .ok [("env", "prod"), ("region", "eu"), ("owner", "team-a")] := rfl
  have hm : [("env", "prod"), ("region", "eu"), ("owner", "team-a")] = meta :=
    Except.ok.inj (hcomp.symm.trans hmeta)
  refine ⟨meta, hmeta, hover "owner" "team-a" (by decide), ?_, ?_⟩ <;>
    rw [← hm] <;> decide

/-- Store for C9: two raw nodes of the same processed node bind the same
metadata key `owner` to different values, and the processed node's own hash
does not bind it. -/
def orderStore : Store where
  strings := fun _ => none
  sets := fun _ => []
  hashes := fun key =>
    if key = rawMetaKey "r1" then [("owner", "team-b")]
    else if key = rawMetaKey "r2" then [("owner", "team-c")]
    else []
  qualify := fun _ _ => []

/-- A processed node iterating its raw identifiers as `r1, r2`. -/
def orderNode1 : Node where
  name := "n"
  link_id := "L"
  alt_names := []
  dns_names := []
  raw_ids := ["r1", "r2"]
  plugins := []

/-- The same processed node iterating its raw identifiers as `r2, r1`. -/
def orderNode2 : Node :=
  { orderNode1 with raw_ids := ["r2", "r1"] }

/-- C9: the raw-node metadata merge is last-write-wins in the iteration
order of the unordered `raw_ids` set: on the same store, two runs that
differ only in that iteration order (the two nodes hold permutations of the
same raw identifiers, everything else equal) return different values for
the shared key `owner`, so the result is not deterministic. -/
theorem get_node_metadata_order_dependent :
    orderNode1.raw_ids.Perm orderNode2.raw_ids ∧
    orderNode1.link_id = orderNode2.link_id ∧
    (orderStore.hashes (procMetaKey orderNode1.link_id)).lookup "owner" = none ∧
    get_node_metadata orderStore orderNode1 = .ok [("owner", "team-c")] ∧
    get_node_metadata orderStore orderNode2 = .ok [("owner", "team-b")] ∧
    ("team-c" : String) ≠ "team-b" :=
  ⟨by decide, rfl, rfl, rfl, rfl, by decide⟩

/-- C4: `get_dns_metadata` operates on exactly the qualified name that the
`qualify_dns_names` call on its input yields: when qualification of the one
name returns zero names it is the `Logic` error, and when qualification
returns a first name `qn` it is the metadata hash keyed by `qn` under the
DNS metadata namespace. -/
theorem get_dns_metadata_qualified_key (store : Store) (name : String) :
    (qualify_dns_names store [name] = .ok [] →
      get_dns_metadata store name =
        .error (.Logic "Tried to qualify one DNS name but got zero back.")) ∧
    ∀ qn rest, qualify_dns_names store [name] = .ok (qn :: rest) →
      get_dns_metadata store name =
        .ok (store.hashes (META_KEY ++ ";" ++ DNS_KEY ++ ";" ++ qn)) := by
  constructor
  · intro h
    unfold get_dns_metadata
    rw [h]
    rfl
  · intro qn rest h
    unfold get_dns_metadata
    rw [h]
    rfl

/-- A store whose qualification procedure returns no names. -/
def qualifyEmptyStore : Store where
  strings := fun _ => none
  sets := fun _ => []
  hashes := fun _ => []
  qualify := fun _ _ => []

/-- A store qualifying every name under the network `net0` and holding a
metadata hash for the qualified `host1`. -/
def qualifyNetStore : Store where
  strings := fun _ => none
  sets := fun _ => []
  hashes := fun key => if key = "meta;dns;net0;host1" then [("env", "prod")] else []
  qualify := fun _ names => names.map (fun n => "net0;" ++ n)

/-- Witness for C4: the zero-names store yields the `Logic` error and the
qualifying store yields the hash keyed by the qualified name. -/
theorem get_dns_metadata_qualified_key_witness :
    get_dns_metadata qualifyEmptyStore "host1" =
      .error (.Logic "Tried to qualify one DNS name but got zero back.") ∧
    get_dns_metadata qualifyNetStore "host1" = .ok [("env", "prod")] :=
  ⟨(get_dns_metadata_qualified_key qualifyEmptyStore "host1").1 rfl,
    (get_dns_metadata_qualified_key qualifyNetStore "host1").2 "net0;host1" [] rfl⟩

theorem get_node_link_id (store : Store) (link_id : String) (node : Node)
    (h : get_node store link_id = .ok node) : node.link_id = link_id := by
  unfold get_node at h
  cases hs : store.strings (PROC_NODES_KEY ++ ";" ++ link_id) with
  | none => rw [hs] at h; exact Except.noConfusion h
  | some nm =>
      rw [hs] at h
      have hnode := Except.ok.inj h
      rw [← hnode]

theorem get_nodes_loop_spec (store : Store) (ids : List String) :
    ∀ acc ns : List Node, get_nodes_loop store acc ids = .ok ns →
      ∃ tail, ns = acc ++ tail ∧ tail.map Node.link_id = ids ∧
        ∀ node ∈ tail, get_node store node.link_id = .ok node := by
  induction ids with
  | nil =>
      intro acc ns h
      refine ⟨[], ?_, rfl, by simp⟩
      have hacc : acc = ns := Except.ok.inj h
      simp [hacc]
  | cons i is ih =>
      intro acc ns h
      unfold get_nodes_loop at h
      cases hg : get_node store i with
      | error e =>
          rw [hg] at h
          exact Except.noConfusion h
      | ok nd =>
          rw [hg] at h
          obtain ⟨tail, htail, hmap, hall⟩ := ih (acc ++ [nd]) ns h
          have hid : nd.link_id = i := get_node_link_id store i nd hg
          refine ⟨nd :: tail, by simp [htail], ?_, ?_⟩
          · simp [hid, hmap]
          · intro node hnode
            rcases List.mem_cons.mp hnode with rfl | hmem
            · rw [hid]; exact hg
            · exact hall node hmem

/-- C5: when `get_nodes` succeeds, it returns exactly one `Node` per
distinct link identifier of the processed-nodes set (the returned link
identifiers are the set's members, without duplicates since a redis set has
distinct members), and each returned node is the one `get_node` fetches
independently for its link identifier, populated with the `alt_names`,
`dns_names`, `raw_ids` and `plugins` sets. -/
theorem get_nodes_one_per_link_id (store : Store) (ns : List Node)
    (h : get_nodes store = .ok ns) (hnd : (store.sets PROC_NODES_KEY).Nodup) :
    ns.map Node.link_id = store.sets PROC_NODES_KEY ∧
    (ns.map Node.link_id).Nodup ∧
    ∀ node ∈ ns, get_node store node.link_id = .ok node := by
  obtain ⟨tail, htail, hmap, hall⟩ :=
    get_nodes_loop_spec store (store.sets PROC_NODES_KEY) [] ns h
  rw [List.nil_append] at htail
  subst htail
  exact ⟨hmap, by rw [hmap]; exact hnd, hall⟩

/-- A store with two processed nodes `l1`, `l2`. -/
def nodesStore : Store where
  strings := fun key =>
    if key = "proc_nodes;l1" then some "node one"
    else if key = "proc_nodes;l2" then some "node two"
    else none
  sets := fun key =>
    if key = PROC_NODES_KEY then ["l1", "l2"]
    else if key = "proc_nodes;l1;dns_names" then ["net0;a.example"]
    else []
  hashes := fun _ => []
  qualify := fun _ _ => []

/-- Witness for C5 on the two-node store. -/
theorem get_nodes_one_per_link_id_witness :
    (nodesStore.sets PROC_NODES_KEY).Nodup ∧
    ∃ ns, get_nodes nodesStore = .ok ns ∧
      ns.map Node.link_id = ["l1", "l2"] ∧ (ns.map Node.link_id).Nodup ∧
      ∀ node ∈ ns, get_node nodesStore node.link_id = .ok node := by
  refine ⟨by decide, ?_⟩
  have h : get_nodes nodesStore = .ok
      [{ name := "node one", link_id := "l1", alt_names := [],
         dns_names := ["net0;a.example"], raw_ids := [], plugins := [] },
       { name := "node two", link_id := "l2", alt_names := [], dns_names := [],
         raw_ids := [], plugins := [] }] := rfl
  obtain ⟨hmap, hnd2, hall⟩ := get_nodes_one_per_link_id nodesStore _ h (by decide)
  exact ⟨_, h, hmap, hnd2, hall⟩
